import Mathlib

/-!
Verification development for the BDI agent core in `bdi_agent_framework.py`.

The embedding covers the state container (`beliefs` dict, `desires` list,
`intentions` list), the operations `add_belief`, `add_desire`, `reason`
(`_update_beliefs`, `_create_intentions`), `execute_intentions`,
`execute_action` and `cycle`.  Prompt construction (`get_context`,
`_build_reasoning_prompt`) and console logging only produce text that is sent
to external collaborators; they do not affect any state or return value
studied here and are not modelled.

Modelling conventions:
* Python/JSON runtime values are the inductive `Val`; Python ints and floats
  are both rationals (`Val.num`), `None` and JSON `null` are `Val.null`.
  Python float arithmetic is modelled exactly (rationals), not with rounding.
* The external LLM call together with `json.loads` of its reply is an input
  (`ReplyOutcome`): the call raising is `serviceError`, a reply that is not
  valid JSON is `unparseable`, and a valid JSON reply is `parsed v`.  The
  textual JSON parser itself is Python's library and is outside the program.
* Python exceptions inside `reason`'s `try` block are modelled by the
  `Except`/flag results of the step functions; the `except` handlers of
  `reason` correspond to the branches that return `([], ·)`.
* Exceptions raised by an overridden `execute_action` are modelled by letting
  the action capability return `Except String String`.
-/

namespace BDI

/-- Runtime values handled by the agent: the values Python's `json.loads`
produces, plus `None`.  Python `int` and `float` are conflated into `num`
(exact rationals); `str` is a Python string.  `null` models Python `None`,
which is also what JSON `null` parses to. -/
inductive Val where
  | null : Val
  | bool (b : Bool) : Val
  | num (q : ℚ) : Val
  | str (s : String) : Val
  | arr (elems : List Val) : Val
  | obj (fields : List (String × Val)) : Val

/-- Python truthiness (`if x:`): `None`, `False`, `0`, `0.0`, `""`, `[]` and
`{}` are falsy, everything else is truthy. -/
def Val.truthy : Val → Bool
  | Val.null => false
  | Val.bool b => b
  | Val.num q => q != 0
  | Val.str s => s != ""
  | Val.arr xs => !xs.isEmpty
  | Val.obj fs => !fs.isEmpty

/-- Rendering of a number inside an f-string.  Python prints floats with a
decimal point (`repr(1.0) = "1.0"`); since `num` conflates int and float the
rendering is exact only up to that int/float distinction, and non-integral
rationals are shown as fractions rather than decimal floats.  No claim
renders a number, so this only fixes an arbitrary total function. -/
def pyReprQ (q : ℚ) : String :=
  if q.den = 1 then toString q.num ++ ".0" else toString q.num ++ "/" ++ toString q.den

mutual

/-- Python `repr` of a value, as used by f-string interpolation of containers
(`str` of a `list`/`dict` equals its `repr`).  String escaping inside quotes
is not reproduced (no claim renders a string needing escapes). -/
def Val.pyRepr : Val → String
  | Val.null => "None"
  | Val.bool true => "True"
  | Val.bool false => "False"
  | Val.num q => pyReprQ q
  | Val.str s => "'" ++ s ++ "'"
  | Val.arr xs => "[" ++ String.intercalate ", " (pyReprList xs) ++ "]"
  | Val.obj fs => "\x7b" ++ String.intercalate ", " (pyReprFields fs) ++ "\x7d"

/-- Helper of `Val.pyRepr` for array elements. -/
def pyReprList : List Val → List String
  | [] => []
  | v :: vs => Val.pyRepr v :: pyReprList vs

/-- Helper of `Val.pyRepr` for dict fields (`'key': value`). -/
def pyReprFields : List (String × Val) → List String
  | [] => []
  | (k, v) :: fs => ("'" ++ k ++ "': " ++ Val.pyRepr v) :: pyReprFields fs

end

/-- Python `str` of a value, as used by f-string interpolation: a string is
itself, anything else renders as its `repr` (true for `None`, bools, numbers
and containers in Python 3). -/
def Val.pyStr : Val → String
  | Val.str s => s
  | v => v.pyRepr

/-- Numeric value of a (nonempty) run of decimal digits. -/
def digitsToNat (cs : List Char) : ℕ :=
  cs.foldl (fun acc c => acc * 10 + (c.toNat - 48)) 0

/-- Models Python `float(s)` on a string: `some` of the value for a decimal
literal with optional sign and optional fractional part, `none` when the call
raises `ValueError`.  The decimal value `±(ip.fp)` is built as one exact
rational `±(ip * 10^k + fp) / 10^k` with `k` the length of the fractional
digit run.  Exponent notation, `inf`/`nan` and surrounding whitespace, which
Python also accepts, are not modelled; no claim uses them. -/
def parseFloat? (s : String) : Option ℚ :=
  let signBody : ℤ × List Char :=
    match s.toList with
    | '-' :: rest => (-1, rest)
    | '+' :: rest => (1, rest)
    | cs => (1, cs)
  let sign := signBody.1
  let body := signBody.2
  let ip := body.takeWhile Char.isDigit
  let rest1 := body.dropWhile Char.isDigit
  match rest1 with
  | [] => if ip.isEmpty then none else some (mkRat (sign * (digitsToNat ip : ℤ)) 1)
  | '.' :: rest2 =>
    let fp := rest2.takeWhile Char.isDigit
    let rest3 := rest2.dropWhile Char.isDigit
    if rest3.isEmpty && !(ip.isEmpty && fp.isEmpty) then
      some (mkRat (sign * ((digitsToNat ip * 10 ^ fp.length + digitsToNat fp : ℕ) : ℤ))
        (10 ^ fp.length))
    else none
  | _ => none

/-- Equality of dict keys, modelling Python `==` between hashable values:
same-type comparison plus the numeric tower (`True == 1`, `False == 0`,
`1 == 1.0`).  Containers never become dict keys here (they are unhashable and
rejected before insertion), so they compare unequal to everything. -/
def keyEq : Val → Val → Bool
  | Val.null, Val.null => true
  | Val.str a, Val.str b => a == b
  | Val.bool a, Val.bool b => a == b
  | Val.num a, Val.num b => a == b
  | Val.bool a, Val.num b => (if a then (1 : ℚ) else 0) == b
  | Val.num a, Val.bool b => a == (if b then (1 : ℚ) else 0)
  | _, _ => false

/-- Whether a value may be a Python dict key (`list` and `dict` are
unhashable; storing under such a key raises `TypeError`). -/
def hashable : Val → Bool
  | Val.arr _ => false
  | Val.obj _ => false
  | _ => true

/-- Field lookup in a parsed JSON object, modelling `d.get(k)` / `d[k]`.
`json.loads` produces dicts, whose keys are unique (a duplicate key in the
JSON text keeps the last binding), so first-match lookup is exact. -/
def getField (fields : List (String × Val)) (k : String) : Option Val :=
  (fields.find? (fun p => p.1 == k)).map Prod.snd

/-- Models Python iteration (`for x in v`) over a parsed JSON value: a list
yields its elements, a string yields its one-character substrings, a dict
yields its keys; numbers, booleans and `None` are not iterable (`TypeError`,
modelled as `none`). -/
def asList : Val → Option (List Val)
  | Val.arr xs => some xs
  | Val.str s => some (s.toList.map (fun c => Val.str (String.mk [c])))
  | Val.obj fs => some (fs.map (fun p => Val.str p.1))
  | _ => none

/-- The `Belief` dataclass: `key`, `value`, `confidence`.  The annotations
(`key : str`, `confidence : float`) are not enforced at runtime, so all three
fields hold arbitrary values. -/
structure Belief where
  key : Val
  value : Val
  confidence : Val

/-- The `Desire` dataclass: `goal`, `priority`, `context`.  Desires are only
ever created by `add_desire`, whose callers pass a string goal and an int
priority, so those fields keep their annotated types. -/
structure Desire where
  goal : String
  priority : Int
  context : List (String × Val)

/-- The `Intention` dataclass: `action`, `parameters`, `deadline`.  All three
come from unvalidated JSON in `_create_intentions`, so they are arbitrary
values; `deadline = Val.null` models Python `None` (the annotation's default
and also a JSON `null` deadline, which Python cannot distinguish). -/
structure Intention where
  action : Val
  parameters : Val
  deadline : Val

/-- The mutable agent state: `self.beliefs` (an insertion-ordered dict keyed
by the belief key, represented as an association list), `self.desires` and
`self.intentions`.  `name`, `llm` and `system_prompt` only influence prompt
text and log lines and are omitted. -/
structure AgentState where
  beliefs : List (Val × Belief)
  desires : List Desire
  intentions : List Intention

/-- Python dict store `d[k] = b`: if a key equal to `k` is present its value
is replaced in place (the dict keeps the originally stored key object and the
insertion position); otherwise the binding is appended at the end. -/
def dictInsert (k : Val) (b : Belief) : List (Val × Belief) → List (Val × Belief)
  | [] => [(k, b)]
  | (k', b') :: rest =>
    if keyEq k' k then (k', b) :: rest else (k', b') :: dictInsert k b rest

/-- Python dict lookup `d.get(k)` on the beliefs dict. -/
def lookupBelief (k : Val) : List (Val × Belief) → Option Belief
  | [] => none
  | (k', b) :: rest => if keyEq k' k then some b else lookupBelief k rest

/-- `BDIAgent.add_belief`: `self.beliefs[key] = Belief(key, value, confidence)`.
The `TypeError` an unhashable key would raise at the dict store is modelled at
the call site inside `reason` (`applyUpdate`); direct callers always pass
string keys. -/
def add_belief (s : AgentState) (key value confidence : Val) : AgentState :=
  { s with beliefs := dictInsert key (Belief.mk key value confidence) s.beliefs }

/-- `BDIAgent.add_desire`: appends `Desire(goal, priority, context or {})`;
`context = none` models the `None` default (and `context or {}` maps a falsy
empty dict to a fresh empty dict, which is the same value). -/
def add_desire (s : AgentState) (goal : String) (priority : Int)
    (context : Option (List (String × Val))) : AgentState :=
  { s with desires := s.desires ++ [Desire.mk goal priority (context.getD [])] }

/-- Shape check for one `belief_updates` entry: it must be a dict carrying
`"key"` and `"value"` (otherwise `belief_update["key"]` raises), and the key
must be hashable (otherwise the dict store in `add_belief` raises). -/
def updateWellFormed (e : Val) : Bool :=
  match e with
  | Val.obj fs =>
    match getField fs "key", getField fs "value" with
    | some k, some _ => hashable k
    | _, _ => false
  | _ => false

/-- The entry is a dict that lacks the `"key"` field or the `"value"` field. -/
def missingKeyOrValue (e : Val) : Bool :=
  match e with
  | Val.obj fs => (getField fs "key").isNone || (getField fs "value").isNone
  | _ => false

/-- One iteration of the `_update_beliefs` loop body:
`self.add_belief(bu["key"], bu["value"], bu.get("confidence", 1.0))`.
`Except.error` models the exception (a `KeyError`/`TypeError`) that the
iteration raises on a malformed entry; it is caught by `reason`. -/
def applyUpdate (s : AgentState) (e : Val) : Except Unit AgentState :=
  match e with
  | Val.obj fs =>
    match getField fs "key", getField fs "value" with
    | some k, some v =>
      if hashable k then
        Except.ok (add_belief s k v ((getField fs "confidence").getD (Val.num 1)))
      else Except.error ()
    | some _, none => Except.error ()
    | none, _ => Except.error ()
  | _ => Except.error ()

/-- `BDIAgent._update_beliefs`: applies the entries in order, stopping at the
first malformed one.  The boolean records whether the whole list was applied
(`false` means the loop raised and the returned state holds only the prefix
before the failure point). -/
def applyBeliefUpdates : List Val → AgentState → AgentState × Bool
  | [], s => (s, true)
  | e :: rest, s =>
    match applyUpdate s e with
    | Except.ok s' => applyBeliefUpdates rest s'
    | Except.error _ => (s, false)

/-- `BDIAgent._create_intentions`: builds one `Intention` per entry with
defaults `parameters = {}` and `deadline = None`; `none` models the exception
raised by a non-dict entry or a missing `"action"` (the partially built local
list is discarded, so only all-or-nothing is observable). -/
def createIntentions : List Val → Option (List Intention)
  | [] => some []
  | e :: rest =>
    match e with
    | Val.obj fs =>
      match getField fs "action" with
      | some a =>
        (createIntentions rest).map
          (fun is =>
            Intention.mk a ((getField fs "parameters").getD (Val.obj []))
              ((getField fs "deadline").getD Val.null) :: is)
      | none => none
    | _ => none

/-- Outcome of the LLM call plus `json.loads` on its reply text, the external
input of one `reason` call: the call raising any exception, the reply failing
to parse as JSON (`json.JSONDecodeError`), or the parsed JSON value. -/
inductive ReplyOutcome where
  | serviceError : ReplyOutcome
  | unparseable : ReplyOutcome
  | parsed (v : Val) : ReplyOutcome

/-- `BDIAgent.reason`: parse the reply, apply belief updates, replace the
intentions list, return the new intentions.  Every `([], ·)` branch is one of
the `except` handlers: the service call raising, the reply not being JSON,
`result.get` on a non-dict, a non-iterable or malformed `belief_updates`
(keeping the prefix of updates already applied), and a non-iterable or
malformed `new_intentions`.  Logging of the `reasoning` field never fails and
is omitted. -/
def reason (s : AgentState) (r : ReplyOutcome) : List Intention × AgentState :=
  match r with
  | ReplyOutcome.serviceError => ([], s)
  | ReplyOutcome.unparseable => ([], s)
  | ReplyOutcome.parsed v =>
    match v with
    | Val.obj fields =>
      match asList ((getField fields "belief_updates").getD (Val.arr [])) with
      | none => ([], s)
      | some updates =>
        match applyBeliefUpdates updates s with
        | (s1, false) => ([], s1)
        | (s1, true) =>
          match asList ((getField fields "new_intentions").getD (Val.arr [])) with
          | none => ([], s1)
          | some nis =>
            match createIntentions nis with
            | none => ([], s1)
            | some is => (is, { s1 with intentions := is })
    | _ => ([], s)

/-- A reply on which `reason` takes a malformed-response error path: the
reply text is not JSON, or the parsed value fails the three-field contract
somewhere (`serviceError` is the distinct service-call failure). -/
def replyMalformed : ReplyOutcome → Bool
  | ReplyOutcome.serviceError => false
  | ReplyOutcome.unparseable => true
  | ReplyOutcome.parsed v =>
    match v with
    | Val.obj fields =>
      match asList ((getField fields "belief_updates").getD (Val.arr [])) with
      | none => true
      | some updates =>
        if updates.all updateWellFormed then
          match asList ((getField fields "new_intentions").getD (Val.arr [])) with
          | none => true
          | some nis => (createIntentions nis).isNone
        else true
    | _ => true

/-- The guarded deadline coercion in `execute_intentions`:
`float(d) if isinstance(d, str) else d`, then compared against the current
time.  `some q` is the number the comparison uses; `none` means the `try`
block raised (`ValueError` from `float` on a non-numeric string, `TypeError`
from comparing a non-number) and the intention is treated as not expired.
A boolean compares as `0`/`1` in Python's numeric tower. -/
def coerceDeadline : Val → Option ℚ
  | Val.str s => parseFloat? s
  | Val.num q => some q
  | Val.bool b => some (if b then 1 else 0)
  | Val.null => none
  | Val.arr _ => none
  | Val.obj _ => none

/-- The expiry test `current_time > deadline` under the guarded coercion:
true exactly when the coercion succeeds and the coerced deadline is strictly
before `now`. -/
def dlExpired (now : ℚ) (d : Val) : Bool :=
  match coerceDeadline d with
  | some q => decide (q < now)
  | none => false

/-- `BDIAgent.execute_action` (the default capability): returns
`f"Action '{action}' with params {parameters} completed"`. -/
def execute_action (action : Val) (parameters : Val) : String :=
  "Action '" ++ action.pyStr ++ "' with params " ++ parameters.pyStr ++ " completed"

/-- The loop of `BDIAgent.execute_intentions`, parameterised by the action
capability `act` (the overridable `execute_action`; `Except.error` models an
exception it raises).  The loop iterates over a copy of the intentions list
and removes each processed intention from the live list with
`list.remove` (first equal element); since every processed element is removed
before the next is visited, the live list after processing a prefix is
exactly the corresponding suffix of the original list.  The function returns
the result of the loop (`Except.error e` when `act` raised `e`, in which case
the results list is lost with the stack frame) together with the final live
list: empty on success, the unremoved current intention plus the unvisited
suffix when `act` raised. -/
def execIntentionsWith (act : Val → Val → Except String String) (now : ℚ) :
    List Intention → Except String (List String) × List Intention
  | [] => (Except.ok [], [])
  | i :: rest =>
    if i.deadline.truthy && dlExpired now i.deadline then
      (Except.map (fun rs => ("EXPIRED: " ++ i.action.pyStr) :: rs)
        (execIntentionsWith act now rest).1,
       (execIntentionsWith act now rest).2)
    else
      match act i.action i.parameters with
      | Except.error e => (Except.error e, i :: rest)
      | Except.ok res =>
        (Except.map (fun rs => ("EXECUTED: " ++ i.action.pyStr ++ " -> " ++ res) :: rs)
          (execIntentionsWith act now rest).1,
         (execIntentionsWith act now rest).2)

/-- The base class's action capability: the default `execute_action`, which
always returns normally. -/
def defaultAct (a p : Val) : Except String String :=
  Except.ok (execute_action a p)

/-- `BDIAgent.execute_intentions` with the default (never-raising) action
capability; the `error` branch of the outer match is unreachable
(`execDefault_ok` below). -/
def execute_intentions (now : ℚ) (s : AgentState) : List String × AgentState :=
  match execIntentionsWith defaultAct now s.intentions with
  | (Except.ok rs, rem) => (rs, { s with intentions := rem })
  | (Except.error _, rem) => ([], { s with intentions := rem })

/-- The summary dict returned by `BDIAgent.cycle`. -/
structure CycleResult where
  intentions_formed : ℕ
  actions_executed : List String
  current_beliefs : List Val
  active_desires : ℕ

/-- `BDIAgent.cycle` parameterised by the action capability: `reason`, then
the execution loop, then the summary.  An exception from a substituted
capability is not guarded anywhere on this path, so it propagates
(`Except.error`). -/
def cycleWith (act : Val → Val → Except String String) (now : ℚ) (s : AgentState)
    (r : ReplyOutcome) : Except String (CycleResult × AgentState) :=
  let p := reason s r
  match execIntentionsWith act now p.2.intentions with
  | (Except.error e, _) => Except.error e
  | (Except.ok rs, rem) =>
    Except.ok
      (CycleResult.mk p.1.length rs (p.2.beliefs.map Prod.fst) p.2.desires.length,
       { p.2 with intentions := rem })

/-- `BDIAgent.cycle` on the base class (default action capability). -/
def cycle (now : ℚ) (s : AgentState) (r : ReplyOutcome) :
    Except String (CycleResult × AgentState) :=
  cycleWith defaultAct now s r

/-- The beliefs dict holds at most one binding per key (pairwise inequality
of stored keys under Python key equality) — the representation invariant a
Python dict maintains structurally. -/
def NodupKeys (bs : List (Val × Belief)) : Prop :=
  List.Pairwise (fun p q => keyEq p.1 q.1 = false) bs

/-- One public `add_belief(k, v, c)` call, as a triple of its arguments. -/
def applyBeliefCalls (calls : List (String × Val × Val)) (s : AgentState) : AgentState :=
  calls.foldl (fun st c => add_belief st (Val.str c.1) c.2.1 c.2.2) s

/-- The arguments of the most recent call for key `k` in a call sequence. -/
def lastCall : List (String × Val × Val) → String → Option (Val × Val)
  | [], _ => none
  | c :: rest, k =>
    match lastCall rest k with
    | some r => some r
    | none => if c.1 = k then some (c.2.1, c.2.2) else none

/-- A sequence of `add_desire` calls; `none` context models the omitted
argument. -/
def applyDesireCalls (calls : List (String × Int × Option (List (String × Val))))
    (s : AgentState) : AgentState :=
  calls.foldl (fun st c => add_desire st c.1 c.2.1 c.2.2) s

/-- The desire a single `add_desire` call appends. -/
def mkDesire (c : String × Int × Option (List (String × Val))) : Desire :=
  Desire.mk c.1 c.2.1 (c.2.2.getD [])

lemma keyEq_str_self (s : String) : keyEq (Val.str s) (Val.str s) = true := by
  simp [keyEq]

lemma eq_str_of_keyEq {a : Val} {s : String} (h : keyEq a (Val.str s) = true) :
    a = Val.str s := by
  cases a <;> simp_all [keyEq]

lemma lookupBelief_dictInsert_self (k : Val) (b : Belief) (hk : keyEq k k = true) :
    ∀ bs, lookupBelief k (dictInsert k b bs) = some b
  | [] => by simp [dictInsert, lookupBelief, hk]
  | (k', b') :: rest => by
    by_cases h : keyEq k' k = true
    · simp [dictInsert, lookupBelief, h]
    · simp [dictInsert, lookupBelief, h, lookupBelief_dictInsert_self k b hk rest]

lemma lookupBelief_dictInsert_str_ne {s1 s2 : String} (h : s1 ≠ s2) (b : Belief) :
    ∀ bs, lookupBelief (Val.str s1) (dictInsert (Val.str s2) b bs) =
      lookupBelief (Val.str s1) bs
  | [] => by
    have : (s2 == s1) = false := by simp [Ne.symm h]
    simp [dictInsert, lookupBelief, keyEq, this]
  | (k', b') :: rest => by
    by_cases hk : keyEq k' (Val.str s2) = true
    · have hk2 : k' = Val.str s2 := eq_str_of_keyEq hk
      have : keyEq k' (Val.str s1) = false := by
        subst hk2; simp [keyEq]; exact Ne.symm h
      simp [dictInsert, lookupBelief, hk, this]
    · simp [dictInsert, lookupBelief, hk,
        lookupBelief_dictInsert_str_ne h b rest]

lemma mem_dictInsert_keys {k : Val} {b : Belief} {p : Val × Belief} :
    ∀ {bs}, p ∈ dictInsert k b bs → p.1 = k ∨ p.1 ∈ bs.map Prod.fst
  | [], hp => by simp [dictInsert] at hp; simp [hp]
  | (k', b') :: rest, hp => by
    by_cases h : keyEq k' k = true
    · simp [dictInsert, h] at hp
      rcases hp with hp | hp
      · right; simp [hp]
      · right; simp; right; exact ⟨p.2, by simpa using hp⟩
    · simp [dictInsert, h] at hp
      rcases hp with hp | hp
      · right; simp [hp]
      · rcases mem_dictInsert_keys hp with h1 | h1
        · exact Or.inl h1
        · right; simp at h1 ⊢; tauto

lemma nodupKeys_dictInsert (k : Val) (b : Belief) :
    ∀ {bs}, NodupKeys bs → NodupKeys (dictInsert k b bs)
  | [], _ => by simp [dictInsert, NodupKeys]
  | (k', b') :: rest, h => by
    rcases h with _ | ⟨h1, h2⟩
    by_cases hk : keyEq k' k = true
    · simpa [dictInsert, hk, NodupKeys] using
        List.Pairwise.cons (fun p hp => h1 p hp) h2
    · rw [show dictInsert k b ((k', b') :: rest) = (k', b') :: dictInsert k b rest by
        simp [dictInsert, hk]]
      refine List.Pairwise.cons ?_ (nodupKeys_dictInsert k b h2)
      intro p hp
      rcases mem_dictInsert_keys hp with h3 | h3
      · rw [h3]; simpa using hk
      · simp at h3
        rcases h3 with ⟨b2, hb2⟩
        simpa using h1 (p.1, b2) hb2

lemma add_belief_desires (s : AgentState) (k v c : Val) :
    (add_belief s k v c).desires = s.desires := rfl

lemma add_belief_intentions (s : AgentState) (k v c : Val) :
    (add_belief s k v c).intentions = s.intentions := rfl

lemma applyBeliefCalls_cons (c : String × Val × Val) (cs : List (String × Val × Val))
    (s : AgentState) :
    applyBeliefCalls (c :: cs) s = applyBeliefCalls cs (add_belief s (Val.str c.1) c.2.1 c.2.2) :=
  rfl

lemma lastCall_cons_none {c : String × Val × Val} {rest : List (String × Val × Val)}
    {k : String} (h : lastCall (c :: rest) k = none) :
    lastCall rest k = none ∧ c.1 ≠ k := by
  rcases hr : lastCall rest k with _ | r
  · simp only [lastCall, hr] at h
    split at h
    · exact absurd h (by simp)
    · exact ⟨rfl, by assumption⟩
  · simp [lastCall, hr] at h

lemma lookup_applyBeliefCalls_of_lastCall_none {calls : List (String × Val × Val)}
    {k : String} (h : lastCall calls k = none) :
    ∀ s, lookupBelief (Val.str k) (applyBeliefCalls calls s).beliefs =
      lookupBelief (Val.str k) s.beliefs := by
  induction calls with
  | nil => intro s; rfl
  | cons c rest ih =>
    intro s
    obtain ⟨h1, h2⟩ := lastCall_cons_none h
    rw [applyBeliefCalls_cons, ih h1]
    exact lookupBelief_dictInsert_str_ne (Ne.symm h2) _ s.beliefs

lemma lookup_applyBeliefCalls_of_lastCall_some {calls : List (String × Val × Val)}
    {k : String} {v c : Val} (h : lastCall calls k = some (v, c)) :
    ∀ s, lookupBelief (Val.str k) (applyBeliefCalls calls s).beliefs =
      some (Belief.mk (Val.str k) v c) := by
  induction calls with
  | nil => simp [lastCall] at h
  | cons c0 rest ih =>
    intro s
    rcases hr : lastCall rest k with _ | r
    · simp only [lastCall, hr] at h
      split at h
      · rename_i hk
        rcases h with h
        rw [applyBeliefCalls_cons, lookup_applyBeliefCalls_of_lastCall_none hr]
        subst hk
        injection h with h'
        injection h' with h1 h2
        subst h1
        subst h2
        exact lookupBelief_dictInsert_self _ _ (keyEq_str_self c0.1) s.beliefs
      · exact absurd h (by simp)
    · simp only [lastCall, hr] at h
      rcases h with h
      rw [applyBeliefCalls_cons]
      exact ih (by rw [hr, h]) _

lemma nodupKeys_applyBeliefCalls (calls : List (String × Val × Val)) :
    ∀ s : AgentState, NodupKeys s.beliefs → NodupKeys (applyBeliefCalls calls s).beliefs := by
  induction calls with
  | nil => intro s h; exact h
  | cons c rest ih =>
    intro s h
    rw [applyBeliefCalls_cons]
    exact ih _ (nodupKeys_dictInsert _ _ h)

lemma applyBeliefCalls_desires (calls : List (String × Val × Val)) :
    ∀ s : AgentState, (applyBeliefCalls calls s).desires = s.desires := by
  induction calls with
  | nil => intro s; rfl
  | cons c rest ih => intro s; rw [applyBeliefCalls_cons, ih]; rfl

lemma applyUpdate_of_wf {e : Val} (s : AgentState) (h : updateWellFormed e = true) :
    ∃ s', applyUpdate s e = Except.ok s' := by
  unfold updateWellFormed at h
  unfold applyUpdate
  split at h
  · rename_i fs
    split at h
    · rename_i k v hk hv
      rw [hk, hv]
      simp only [h, if_true]
      exact ⟨_, rfl⟩
    · exact absurd h (by simp)
  · exact absurd h (by simp)

lemma applyUpdate_of_not_wf {e : Val} (s : AgentState) (h : updateWellFormed e = false) :
    applyUpdate s e = Except.error () := by
  unfold updateWellFormed at h
  unfold applyUpdate
  split at h
  · rename_i fs
    rcases hk : getField fs "key" with _ | k <;> rcases hv : getField fs "value" with _ | v <;>
      simp_all
  · rfl

lemma applyUpdate_ok_state {e : Val} {s s' : AgentState}
    (h : applyUpdate s e = Except.ok s') :
    s'.desires = s.desires ∧ s'.intentions = s.intentions ∧
      (NodupKeys s.beliefs → NodupKeys s'.beliefs) := by
  unfold applyUpdate at h
  split at h
  · split at h
    · split at h
      · rcases h with h
        injection h with h
        subst h
        exact ⟨rfl, rfl, fun hn => nodupKeys_dictInsert _ _ hn⟩
      · exact absurd h (by simp)
    all_goals exact absurd h (by simp)
  · exact absurd h (by simp)

lemma applyBeliefUpdates_snd (us : List Val) :
    ∀ s, (applyBeliefUpdates us s).2 = us.all updateWellFormed := by
  induction us with
  | nil => intro s; rfl
  | cons e rest ih =>
    intro s
    rcases hw : updateWellFormed e with _ | _
    · rw [show applyBeliefUpdates (e :: rest) s = (s, false) by
        simp [applyBeliefUpdates, applyUpdate_of_not_wf s hw]]
      simp [hw]
    · obtain ⟨s', hs'⟩ := applyUpdate_of_wf s hw
      rw [show applyBeliefUpdates (e :: rest) s = applyBeliefUpdates rest s' by
        simp [applyBeliefUpdates, hs']]
      simp [hw, ih]

lemma applyBeliefUpdates_state (us : List Val) :
    ∀ s, (applyBeliefUpdates us s).1.desires = s.desires ∧
      (applyBeliefUpdates us s).1.intentions = s.intentions ∧
      (NodupKeys s.beliefs → NodupKeys (applyBeliefUpdates us s).1.beliefs) := by
  induction us with
  | nil => intro s; exact ⟨rfl, rfl, fun h => h⟩
  | cons e rest ih =>
    intro s
    rcases hs' : applyUpdate s e with _ | s'
    · rw [show applyBeliefUpdates (e :: rest) s = (s, false) by
        simp [applyBeliefUpdates, hs']]
      exact ⟨rfl, rfl, fun h => h⟩
    · rw [show applyBeliefUpdates (e :: rest) s = applyBeliefUpdates rest s' by
        simp [applyBeliefUpdates, hs']]
      obtain ⟨hd, hi, hn⟩ := applyUpdate_ok_state hs'
      obtain ⟨hd2, hi2, hn2⟩ := ih s'
      exact ⟨by rw [hd2, hd], by rw [hi2, hi], fun h => hn2 (hn h)⟩

lemma applyBeliefUpdates_append_fail {pre : List Val} {bad : Val} (post : List Val)
    (hpre : ∀ e ∈ pre, updateWellFormed e = true) (hbad : updateWellFormed bad = false) :
    ∀ s, applyBeliefUpdates (pre ++ bad :: post) s = ((applyBeliefUpdates pre s).1, false) := by
  induction pre with
  | nil =>
    intro s
    simp [applyBeliefUpdates, applyUpdate_of_not_wf s hbad]
  | cons e rest ih =>
    intro s
    obtain ⟨s', hs'⟩ := applyUpdate_of_wf s (hpre e (by simp))
    have h1 : applyBeliefUpdates ((e :: rest) ++ bad :: post) s =
        applyBeliefUpdates (rest ++ bad :: post) s' := by
      simp [applyBeliefUpdates, hs']
    have h2 : applyBeliefUpdates (e :: rest) s = applyBeliefUpdates rest s' := by
      simp [applyBeliefUpdates, hs']
    rw [h1, h2, ih (fun x hx => hpre x (by simp [hx]))]

lemma reason_state (s : AgentState) (r : ReplyOutcome) :
    (reason s r).2.desires = s.desires ∧
      (NodupKeys s.beliefs → NodupKeys (reason s r).2.beliefs) := by
  unfold reason
  rcases r with _ | _ | v
  · exact ⟨rfl, fun h => h⟩
  · exact ⟨rfl, fun h => h⟩
  · rcases v with _ | b | q | st | xs | fields
    case null => exact ⟨rfl, fun h => h⟩
    case bool => exact ⟨rfl, fun h => h⟩
    case num => exact ⟨rfl, fun h => h⟩
    case str => exact ⟨rfl, fun h => h⟩
    case arr => exact ⟨rfl, fun h => h⟩
    case obj =>
    rcases h1 : asList ((getField fields "belief_updates").getD (Val.arr [])) with _ | us
    · constructor <;> simp [h1]
    · have hst := applyBeliefUpdates_state us s
      rcases h2 : applyBeliefUpdates us s with ⟨s1, flag⟩
      rw [h2] at hst
      rcases flag
      · simp only [h1, h2]
        exact ⟨hst.1, fun h => hst.2.2 h⟩
      · rcases h3 : asList ((getField fields "new_intentions").getD (Val.arr [])) with _ | nis
        · simp only [h1, h2, h3]
          exact ⟨hst.1, fun h => hst.2.2 h⟩
        · rcases h4 : createIntentions nis with _ | is
          · simp only [h1, h2, h3, h4]
            exact ⟨hst.1, fun h => hst.2.2 h⟩
          · simp only [h1, h2, h3, h4]
            exact ⟨hst.1, fun h => hst.2.2 h⟩

lemma execDefault_ok (now : ℚ) :
    ∀ l : List Intention, ∃ rs, execIntentionsWith defaultAct now l = (Except.ok rs, [])
  | [] => ⟨[], rfl⟩
  | i :: rest => by
    obtain ⟨rs, h⟩ := execDefault_ok now rest
    by_cases hx : (i.deadline.truthy && dlExpired now i.deadline) = true
    · exact ⟨("EXPIRED: " ++ i.action.pyStr) :: rs, by
        simp [execIntentionsWith, hx, h, Except.map]⟩
    · exact ⟨("EXECUTED: " ++ i.action.pyStr ++ " -> " ++
          execute_action i.action i.parameters) :: rs, by
        simp [execIntentionsWith, hx, h, defaultAct, Except.map]⟩

lemma execute_intentions_state (now : ℚ) (s : AgentState) :
    (execute_intentions now s).2 = { s with intentions := [] } := by
  obtain ⟨rs, h⟩ := execDefault_ok now s.intentions
  simp [execute_intentions, h]

lemma execute_intentions_cons_exec (now : ℚ) (bs : List (Val × Belief)) (ds : List Desire)
    (i : Intention) (rest : List Intention)
    (h : (i.deadline.truthy && dlExpired now i.deadline) = false) :
    (execute_intentions now (AgentState.mk bs ds (i :: rest))).1 =
      ("EXECUTED: " ++ i.action.pyStr ++ " -> " ++ execute_action i.action i.parameters) ::
        (execute_intentions now (AgentState.mk bs ds rest)).1 := by
  obtain ⟨rs, h1⟩ := execDefault_ok now rest
  have h2 : execIntentionsWith defaultAct now (i :: rest) =
      (Except.ok (("EXECUTED: " ++ i.action.pyStr ++ " -> " ++
        execute_action i.action i.parameters) :: rs), []) := by
    simp [execIntentionsWith, h, h1, defaultAct, Except.map]
  simp [execute_intentions, h1, h2]

/-- The reasoning reply of claim C1: one belief update for `mood` (`"calm"`,
confidence `0.6 = 3/5`), one new intention with only an `action` field, and a
`reasoning` string. -/
def c1Reply : Val := Val.obj
  [("belief_updates", Val.arr
      [Val.obj [("key", Val.str "mood"), ("value", Val.str "calm"),
        ("confidence", Val.num (mkRat 3 5))]]),
   ("new_intentions", Val.arr [Val.obj [("action", Val.str "rest")]]),
   ("reasoning", Val.str "ok")]

/-- C1: for the reply
`{"belief_updates": [{"key":"mood","value":"calm","confidence":0.6}],
"new_intentions": [{"action":"rest"}], "reasoning":"ok"}`, after `reason()`
the belief map holds `mood = "calm"` at confidence `0.6`, and both the stored
intentions list and the return value are exactly one intention with action
`"rest"`, empty parameters and deadline `None`. -/
theorem c1_reason_applies_reply (s : AgentState) :
    (reason s (ReplyOutcome.parsed c1Reply)).1 =
      [Intention.mk (Val.str "rest") (Val.obj []) Val.null] ∧
    (reason s (ReplyOutcome.parsed c1Reply)).2.intentions =
      [Intention.mk (Val.str "rest") (Val.obj []) Val.null] ∧
    lookupBelief (Val.str "mood") (reason s (ReplyOutcome.parsed c1Reply)).2.beliefs =
      some (Belief.mk (Val.str "mood") (Val.str "calm") (Val.num (mkRat 3 5))) := by
  refine ⟨rfl, rfl, ?_⟩
  show lookupBelief (Val.str "mood")
      (dictInsert (Val.str "mood")
        (Belief.mk (Val.str "mood") (Val.str "calm") (Val.num (mkRat 3 5))) s.beliefs) = _
  exact lookupBelief_dictInsert_self _ _ (keyEq_str_self "mood") s.beliefs

/-- C2: for every prior state, if the reply is not parseable JSON or the
service call raises, `reason()` returns `[]` without raising and leaves the
whole state — in particular beliefs and desires — exactly as it was (the
model is a total function, so "does not raise" is the shape of the result). -/
theorem c2_reason_degrades_to_noop (s : AgentState) :
    reason s ReplyOutcome.unparseable = ([], s) ∧
    reason s ReplyOutcome.serviceError = ([], s) :=
  ⟨rfl, rfl⟩

/-- C3 counterexample: with a prior stored intention, a malformed
(unparseable) reply leaves `self.intentions` untouched — the stored
intentions list is NOT cleared, refuting the claim at this input. -/
theorem c3_counterexample_intentions_not_cleared :
    (reason (AgentState.mk [] []
        [Intention.mk (Val.str "rest") (Val.obj []) Val.null])
      ReplyOutcome.unparseable).2.intentions ≠ [] :=
  fun h => List.noConfusion h

/-- C3 (amended): when a malformed-response error occurs in `reason()`, the
call returns `[]` and the stored intentions list is left unchanged (not
cleared, not replaced); desires are untouched, and for a JSON parse failure
the entire prior state, beliefs included, is exactly as before. -/
theorem c3_amended_malformed_keeps_state (s : AgentState) (r : ReplyOutcome)
    (h : replyMalformed r = true) :
    (reason s r).1 = [] ∧
    (reason s r).2.intentions = s.intentions ∧
    (reason s r).2.desires = s.desires ∧
    (r = ReplyOutcome.unparseable → reason s r = ([], s)) := by
  rcases r with _ | _ | v
  · simp [replyMalformed] at h
  · exact ⟨rfl, rfl, rfl, fun _ => rfl⟩
  · rcases v with _ | b | q | st | xs | fields
    case null => exact ⟨rfl, rfl, rfl, fun hh => ReplyOutcome.noConfusion hh⟩
    case bool => exact ⟨rfl, rfl, rfl, fun hh => ReplyOutcome.noConfusion hh⟩
    case num => exact ⟨rfl, rfl, rfl, fun hh => ReplyOutcome.noConfusion hh⟩
    case str => exact ⟨rfl, rfl, rfl, fun hh => ReplyOutcome.noConfusion hh⟩
    case arr => exact ⟨rfl, rfl, rfl, fun hh => ReplyOutcome.noConfusion hh⟩
    case obj =>
    rcases h1 : asList ((getField fields "belief_updates").getD (Val.arr [])) with _ | us
    · have hr : reason s (ReplyOutcome.parsed (Val.obj fields)) = ([], s) := by
        unfold reason
        simp only [h1]
      rw [hr]
      exact ⟨rfl, rfl, rfl, fun hh => ReplyOutcome.noConfusion hh⟩
    · have hst := applyBeliefUpdates_state us s
      rcases h2 : applyBeliefUpdates us s with ⟨s1, flag⟩
      rw [h2] at hst
      rcases flag
      · have hr : reason s (ReplyOutcome.parsed (Val.obj fields)) = ([], s1) := by
          unfold reason
          simp only [h1, h2]
        rw [hr]
        exact ⟨rfl, hst.2.1, hst.1, fun hh => ReplyOutcome.noConfusion hh⟩
      · rcases h3 : asList ((getField fields "new_intentions").getD (Val.arr [])) with _ | nis
        · have hr : reason s (ReplyOutcome.parsed (Val.obj fields)) = ([], s1) := by
            unfold reason
            simp only [h1, h2, h3]
          rw [hr]
          exact ⟨rfl, hst.2.1, hst.1, fun hh => ReplyOutcome.noConfusion hh⟩
        · rcases h4 : createIntentions nis with _ | is
          · have hr : reason s (ReplyOutcome.parsed (Val.obj fields)) = ([], s1) := by
              unfold reason
              simp only [h1, h2, h3, h4]
            rw [hr]
            exact ⟨rfl, hst.2.1, hst.1, fun hh => ReplyOutcome.noConfusion hh⟩
          · exfalso
            have hall : us.all updateWellFormed = true := by
              have hs := applyBeliefUpdates_snd us s
              rw [h2] at hs
              exact hs.symm
            unfold replyMalformed at h
            simp only [h1, hall, if_true, h3, h4] at h
            simp at h

/-- C3 amended witness: a prior state with one standing intention and an
unparseable reply — the intentions list is preserved, desires and the whole
state are untouched, and the call returns `[]`. -/
theorem c3_amended_malformed_keeps_state_witness :
    replyMalformed ReplyOutcome.unparseable = true ∧
    (reason (AgentState.mk [] [Desire.mk "g" 1 []]
        [Intention.mk (Val.str "rest") (Val.obj []) Val.null])
      ReplyOutcome.unparseable).2.intentions =
      [Intention.mk (Val.str "rest") (Val.obj []) Val.null] :=
  ⟨rfl, (c3_amended_malformed_keeps_state
    (AgentState.mk [] [Desire.mk "g" 1 []]
      [Intention.mk (Val.str "rest") (Val.obj []) Val.null])
    ReplyOutcome.unparseable rfl).2.1⟩

/-- A dict entry that lacks `"key"` or `"value"` is not well formed. -/
lemma not_wf_of_missing {e : Val} (h : missingKeyOrValue e = true) :
    updateWellFormed e = false := by
  unfold missingKeyOrValue at h
  unfold updateWellFormed
  split at h
  · rename_i fs
    rcases hk : getField fs "key" with _ | k <;>
      rcases hv : getField fs "value" with _ | v <;> simp_all
  · simp at h

/-- C4: if `belief_updates` has its first malformed entry at index `i` — an
entry missing `"key"` or `"value"`, all entries before it well formed — then
`reason()` applies exactly the entries before `i` (via `add_belief`), applies
nothing at or after `i`, does not replace the intentions list, and returns
`[]` without raising: fail fast per update, not transactional. -/
theorem c4_fail_fast_partial_updates (s : AgentState) (pre post : List Val)
    (bad ni rv : Val)
    (hpre : ∀ e ∈ pre, updateWellFormed e = true)
    (hbad : missingKeyOrValue bad = true) :
    reason s (ReplyOutcome.parsed (Val.obj
        [("belief_updates", Val.arr (pre ++ bad :: post)),
         ("new_intentions", ni), ("reasoning", rv)])) =
      ([], (applyBeliefUpdates pre s).1) ∧
    (applyBeliefUpdates pre s).1.intentions = s.intentions ∧
    (applyBeliefUpdates pre s).2 = true := by
  have happ := applyBeliefUpdates_append_fail post hpre (not_wf_of_missing hbad) s
  refine ⟨?_, (applyBeliefUpdates_state pre s).2.1, ?_⟩
  · unfold reason
    simp only [show asList ((getField
        [("belief_updates", Val.arr (pre ++ bad :: post)),
         ("new_intentions", ni), ("reasoning", rv)] "belief_updates").getD (Val.arr []))
        = some (pre ++ bad :: post) from rfl, happ]
  · rw [applyBeliefUpdates_snd]
    simpa [List.all_eq_true] using hpre

/-- C4 witness: a three-entry update list whose middle entry lacks `"value"`:
only the first entry is applied, the intentions list survives, and the call
returns `[]`. -/
theorem c4_fail_fast_partial_updates_witness :
    (∀ e ∈ [Val.obj [("key", Val.str "a"), ("value", Val.num 1)]],
      updateWellFormed e = true) ∧
    missingKeyOrValue (Val.obj [("key", Val.str "b")]) = true ∧
    reason (AgentState.mk [] [] [Intention.mk (Val.str "old") (Val.obj []) Val.null])
      (ReplyOutcome.parsed (Val.obj
        [("belief_updates", Val.arr
            [Val.obj [("key", Val.str "a"), ("value", Val.num 1)],
             Val.obj [("key", Val.str "b")],
             Val.obj [("key", Val.str "c"), ("value", Val.num 2)]]),
         ("new_intentions", Val.arr [Val.obj [("action", Val.str "go")]]),
         ("reasoning", Val.str "r")])) =
      ([], (applyBeliefUpdates [Val.obj [("key", Val.str "a"), ("value", Val.num 1)]]
        (AgentState.mk [] [] [Intention.mk (Val.str "old") (Val.obj []) Val.null])).1) := by
  refine ⟨by decide, by decide, ?_⟩
  exact (c4_fail_fast_partial_updates
    (AgentState.mk [] [] [Intention.mk (Val.str "old") (Val.obj []) Val.null])
    [Val.obj [("key", Val.str "a"), ("value", Val.num 1)]]
    [Val.obj [("key", Val.str "c"), ("value", Val.num 2)]]
    (Val.obj [("key", Val.str "b")])
    (Val.arr [Val.obj [("action", Val.str "go")]]) (Val.str "r")
    (by decide) (by decide)).1

/-- C5: starting from any dict-representable state, after any sequence of
`add_belief(k, v, c)` calls the beliefs container holds at most one belief
per key, the belief under `k` carries the arguments of the most recent call
for `k`, and no core operation (a reasoning cycle's belief merge,
`execute_intentions`, `add_desire`) ever produces two beliefs with the same
identifier or touches the dict's key uniqueness. -/
theorem c5_belief_map_last_write_wins (init : AgentState)
    (hinit : NodupKeys init.beliefs) (calls : List (String × Val × Val))
    (r : ReplyOutcome) (now : ℚ) (g : String) (pr : Int)
    (cx : Option (List (String × Val))) :
    NodupKeys (applyBeliefCalls calls init).beliefs ∧
    (∀ k v c, lastCall calls k = some (v, c) →
      lookupBelief (Val.str k) (applyBeliefCalls calls init).beliefs =
        some (Belief.mk (Val.str k) v c)) ∧
    NodupKeys (reason init r).2.beliefs ∧
    (execute_intentions now init).2.beliefs = init.beliefs ∧
    (add_desire init g pr cx).beliefs = init.beliefs := by
  refine ⟨nodupKeys_applyBeliefCalls calls init hinit,
    fun k v c h => lookup_applyBeliefCalls_of_lastCall_some h init,
    (reason_state init r).2 hinit, ?_, rfl⟩
  rw [execute_intentions_state]

/-- C5 witness: two writes to `"a"` around a write to `"b"`: the map keeps
one belief per key and `"a"` holds the later value and confidence. -/
theorem c5_belief_map_last_write_wins_witness :
    lastCall [("a", Val.num 1, Val.num 1), ("b", Val.num 5, Val.num 1),
      ("a", Val.num 2, Val.num (mkRat 1 2))] "a" =
      some (Val.num 2, Val.num (mkRat 1 2)) ∧
    lookupBelief (Val.str "a")
      (applyBeliefCalls [("a", Val.num 1, Val.num 1), ("b", Val.num 5, Val.num 1),
        ("a", Val.num 2, Val.num (mkRat 1 2))] (AgentState.mk [] [] [])).beliefs =
      some (Belief.mk (Val.str "a") (Val.num 2) (Val.num (mkRat 1 2))) :=
  ⟨rfl, (c5_belief_map_last_write_wins (AgentState.mk [] [] []) List.Pairwise.nil
    [("a", Val.num 1, Val.num 1), ("b", Val.num 5, Val.num 1),
      ("a", Val.num 2, Val.num (mkRat 1 2))]
    ReplyOutcome.serviceError 0 "g" 1 none).2.1 "a" (Val.num 2)
    (Val.num (mkRat 1 2)) rfl⟩

/-- C6 counterexample: the intention's deadline is the number `0` — a present
(non-`None`) deadline whose coerced value `0` is strictly before the current
time `5` — yet `execute_intentions` does not record `"EXPIRED: act0"`; it
executes the action, because the presence test `if intention.deadline:` is
a truthiness check that treats `0` as absent. -/
theorem c6_counterexample_zero_deadline :
    Val.num 0 ≠ Val.null ∧
    coerceDeadline (Val.num 0) = some 0 ∧ (0 : ℚ) < 5 ∧
    (execute_intentions 5 (AgentState.mk [] []
        [Intention.mk (Val.str "act0") (Val.obj []) (Val.num 0)])).1 ≠
      ["EXPIRED: act0"] ∧
    (execute_intentions 5 (AgentState.mk [] []
        [Intention.mk (Val.str "act0") (Val.obj []) (Val.num 0)])).1 =
      ["EXECUTED: act0 -> Action 'act0' with params \x7b\x7d completed"] :=
  ⟨fun h => Val.noConfusion h, rfl, by norm_num, by decide, by decide⟩

/-- C6 (amended): in `execute_intentions`, for every intention whose deadline
is truthy (`None`, `0`, `0.0`, `False` and `""` count as having no deadline):
the deadline is coerced to a number (numeric-string deadlines accepted via
`float`), an intention whose coerced deadline is strictly before the current
time is recorded as `"EXPIRED: <action>"` and removed without its action
being invoked (for every action capability), and a deadline that cannot be
coerced is treated as no deadline — the intention is executed, never an
error. -/
theorem c6_amended_deadline_handling (now : ℚ) (act : Val → Val → Except String String)
    (bs : List (Val × Belief)) (ds : List Desire) (i : Intention)
    (rest : List Intention) (h : i.deadline.truthy = true) :
    (∀ q, coerceDeadline i.deadline = some q → q < now →
      execIntentionsWith act now (i :: rest) =
        (Except.map (fun rs => ("EXPIRED: " ++ i.action.pyStr) :: rs)
          (execIntentionsWith act now rest).1,
         (execIntentionsWith act now rest).2)) ∧
    (∀ ds2 q, parseFloat? ds2 = some q → coerceDeadline (Val.str ds2) = some q) ∧
    (coerceDeadline i.deadline = none →
      (execute_intentions now (AgentState.mk bs ds (i :: rest))).1 =
        ("EXECUTED: " ++ i.action.pyStr ++ " -> " ++
          execute_action i.action i.parameters) ::
          (execute_intentions now (AgentState.mk bs ds rest)).1) := by
  refine ⟨?_, fun ds2 q hh => hh, ?_⟩
  · intro q hq hlt
    have hx : (i.deadline.truthy && dlExpired now i.deadline) = true := by
      simp [h, dlExpired, hq, hlt]
    simp [execIntentionsWith, hx]
  · intro hnone
    have hx : (i.deadline.truthy && dlExpired now i.deadline) = false := by
      simp [dlExpired, hnone]
    exact execute_intentions_cons_exec now bs ds i rest hx

/-- C6 amended witness: deadline `1` at time `5` expires without execution;
`"123.5"` coerces via `float`; the un-coercible string deadline `"soon"`
leads to normal execution. -/
theorem c6_amended_deadline_handling_witness :
    Val.truthy (Val.num 1) = true ∧
    execIntentionsWith defaultAct 5
      [Intention.mk (Val.str "a") (Val.obj []) (Val.num 1)] =
      (Except.ok ["EXPIRED: a"], []) ∧
    coerceDeadline (Val.str "123.5") = some (mkRat 247 2) ∧
    Val.truthy (Val.str "soon") = true ∧
    (execute_intentions 5 (AgentState.mk [] []
        [Intention.mk (Val.str "d") (Val.obj []) (Val.str "soon")])).1 =
      ["EXECUTED: d -> Action 'd' with params \x7b\x7d completed"] := by
  refine ⟨rfl, ?_, ?_, rfl, ?_⟩
  · exact (c6_amended_deadline_handling 5 defaultAct [] []
      (Intention.mk (Val.str "a") (Val.obj []) (Val.num 1)) [] rfl).1 1 rfl (by norm_num)
  · exact (c6_amended_deadline_handling 5 defaultAct [] []
      (Intention.mk (Val.str "a") (Val.obj []) (Val.num 1)) [] rfl).2.1 "123.5"
      (mkRat 247 2) (by decide)
  · exact (c6_amended_deadline_handling 5 defaultAct [] []
      (Intention.mk (Val.str "d") (Val.obj []) (Val.str "soon")) [] rfl).2.2 (by decide)

/-- C7: `execute_intentions` consumes each intention exactly once: one
intention with no deadline yields exactly
`["EXECUTED: <action> -> <default acknowledgment>"]` and empties the stored
list, and an immediate second call returns `[]`. -/
theorem c7_execute_consumes_exactly_once (now now2 : ℚ) (s : AgentState)
    (i : Intention) (h : i.deadline = Val.null) :
    execute_intentions now { s with intentions := [i] } =
      (["EXECUTED: " ++ i.action.pyStr ++ " -> " ++ execute_action i.action i.parameters],
       { s with intentions := ([] : List Intention) }) ∧
    (execute_intentions now2 (execute_intentions now { s with intentions := [i] }).2).1
      = [] := by
  have hc : (i.deadline.truthy && dlExpired now i.deadline) = false := by
    rw [h]; rfl
  have h1 : execIntentionsWith defaultAct now [i] =
      (Except.ok ["EXECUTED: " ++ i.action.pyStr ++ " -> " ++
        execute_action i.action i.parameters], []) := by
    simp [execIntentionsWith, hc, defaultAct, Except.map]
  have hfst : execute_intentions now { s with intentions := [i] } =
      (["EXECUTED: " ++ i.action.pyStr ++ " -> " ++ execute_action i.action i.parameters],
       { s with intentions := ([] : List Intention) }) := by
    simp [execute_intentions, h1]
  exact ⟨hfst, by rw [hfst]; rfl⟩

/-- C7 witness: a concrete no-deadline intention is executed with the default
acknowledgment, the list empties, and the second call returns nothing. -/
theorem c7_execute_consumes_exactly_once_witness :
    execute_intentions 0 (AgentState.mk [] []
        [Intention.mk (Val.str "b") (Val.obj []) Val.null]) =
      (["EXECUTED: b -> Action 'b' with params \x7b\x7d completed"],
       AgentState.mk [] [] []) ∧
    (execute_intentions 1 (execute_intentions 0 (AgentState.mk [] []
        [Intention.mk (Val.str "b") (Val.obj []) Val.null])).2).1 = [] :=
  c7_execute_consumes_exactly_once 0 1 (AgentState.mk [] [] [])
    (Intention.mk (Val.str "b") (Val.obj []) Val.null) rfl

/-- C8: `execute_intentions` itself raises nothing for any intentions-list
content (with the default capability the loop always returns normally with
the list emptied), but an exception from a substituted action capability
propagates uncaught through the loop and through `cycle`. -/
theorem c8_action_errors_propagate (now : ℚ) (l : List Intention) (s : AgentState)
    (r : ReplyOutcome) (act : Val → Val → Except String String) (e : String) :
    (∃ rs, execIntentionsWith defaultAct now l = (Except.ok rs, [])) ∧
    (∀ i rest, i.deadline.truthy = false → act i.action i.parameters = Except.error e →
      (execIntentionsWith act now (i :: rest)).1 = Except.error e) ∧
    ((execIntentionsWith act now (reason s r).2.intentions).1 = Except.error e →
      cycleWith act now s r = Except.error e) := by
  refine ⟨execDefault_ok now l, ?_, ?_⟩
  · intro i rest h1 h2
    have hc : (i.deadline.truthy && dlExpired now i.deadline) = false := by
      rw [h1]; rfl
    simp [execIntentionsWith, hc, h2]
  · intro hE
    rcases hp : execIntentionsWith act now (reason s r).2.intentions with ⟨e1, rem⟩
    rw [hp] at hE
    simp at hE
    subst hE
    simp [cycleWith, hp]

/-- C8 witness: a substituted capability that raises `"boom"` makes the loop
and the whole cycle surface `"boom"` for a state holding one standing
no-deadline intention (the reply being a service error keeps it standing). -/
theorem c8_action_errors_propagate_witness :
    (execIntentionsWith (fun _ _ => Except.error "boom") 0
        [Intention.mk (Val.str "go") (Val.obj []) Val.null]).1 = Except.error "boom" ∧
    cycleWith (fun _ _ => Except.error "boom") 0
      (AgentState.mk [] [] [Intention.mk (Val.str "go") (Val.obj []) Val.null])
      ReplyOutcome.serviceError = Except.error "boom" := by
  have h := c8_action_errors_propagate 0 []
    (AgentState.mk [] [] [Intention.mk (Val.str "go") (Val.obj []) Val.null])
    ReplyOutcome.serviceError (fun _ _ => Except.error "boom") "boom"
  have h1 : (execIntentionsWith (fun _ _ => Except.error "boom") 0
      [Intention.mk (Val.str "go") (Val.obj []) Val.null]).1 = Except.error "boom" :=
    h.2.1 (Intention.mk (Val.str "go") (Val.obj []) Val.null) [] rfl rfl
  exact ⟨h1, h.2.2 h1⟩

/-- Unfolding of `applyDesireCalls` over a call sequence: every call appends
exactly its own desire, in order. -/
lemma applyDesireCalls_desires (calls : List (String × Int × Option (List (String × Val)))) :
    ∀ s : AgentState, (applyDesireCalls calls s).desires = s.desires ++ calls.map mkDesire := by
  induction calls with
  | nil => intro s; simp [applyDesireCalls]
  | cons c cs ih =>
    intro s
    rw [show applyDesireCalls (c :: cs) s
        = applyDesireCalls cs (add_desire s c.1 c.2.1 c.2.2) from rfl, ih]
    simp [add_desire, mkDesire]

/-- C9: `add_desire` is strictly additive — after `N` calls the desires list
is the old list plus one appended desire per call, in call order, each
carrying exactly its call's goal, priority and context (empty when omitted) —
and no core operation (`add_belief`, `reason`, `execute_intentions`, `cycle`)
ever removes or changes a desire. -/
theorem c9_add_desire_strictly_additive (s : AgentState)
    (calls : List (String × Int × Option (List (String × Val))))
    (r : ReplyOutcome) (now : ℚ) (act : Val → Val → Except String String)
    (k v c : Val) :
    (applyDesireCalls calls s).desires = s.desires ++ calls.map mkDesire ∧
    (applyDesireCalls calls s).desires.length = s.desires.length + calls.length ∧
    (add_belief s k v c).desires = s.desires ∧
    (reason s r).2.desires = s.desires ∧
    (execute_intentions now s).2.desires = s.desires ∧
    (∀ res s', cycleWith act now s r = Except.ok (res, s') → s'.desires = s.desires) := by
  refine ⟨applyDesireCalls_desires calls s, ?_, rfl, (reason_state s r).1, ?_, ?_⟩
  · rw [applyDesireCalls_desires calls s]
    simp
  · rw [execute_intentions_state]
  · intro res s' hok
    rcases hp : execIntentionsWith act now (reason s r).2.intentions with ⟨e1, rem⟩
    rcases e1 with e1 | rs
    · simp [cycleWith, hp] at hok
    · simp [cycleWith, hp] at hok
      rw [← hok.2]
      exact (reason_state s r).1

/-- C9 witness: one `add_desire` call with omitted context appends exactly
one desire with empty context, and a full default cycle on a fresh state
keeps the (empty) desires list. -/
theorem c9_add_desire_strictly_additive_witness :
    (applyDesireCalls [("g1", 2, none)] (AgentState.mk [] [] [])).desires =
      [Desire.mk "g1" 2 []] ∧
    (AgentState.mk [] [] []).desires = [] := by
  have h := c9_add_desire_strictly_additive (AgentState.mk [] [] []) [("g1", 2, none)]
    ReplyOutcome.serviceError 0 defaultAct (Val.num 0) (Val.num 0) (Val.num 0)
  exact ⟨h.1, h.2.2.2.2.2 (CycleResult.mk 0 [] [] 0) (AgentState.mk [] [] []) rfl⟩

/-- C10: an intention whose deadline is the falsy value `0` (also `0.0`,
conflated with `0` here, or `""`) is treated as having no deadline — its
action is executed and recorded as `"EXECUTED: ..."` — even when the current
time is past timestamp `0`, because `if intention.deadline:` is a truthiness
test rather than a comparison with `None`. -/
theorem c10_falsy_deadline_executes (now : ℚ) (bs : List (Val × Belief))
    (ds : List Desire) (i : Intention) (rest : List Intention)
    (h : i.deadline = Val.num 0 ∨ i.deadline = Val.str "") (_hnow : 0 < now) :
    Val.truthy i.deadline = false ∧
    (execute_intentions now (AgentState.mk bs ds (i :: rest))).1 =
      ("EXECUTED: " ++ i.action.pyStr ++ " -> " ++ execute_action i.action i.parameters) ::
        (execute_intentions now (AgentState.mk bs ds rest)).1 := by
  have ht : Val.truthy i.deadline = false := by
    rcases h with h | h <;> rw [h] <;> rfl
  have hc : (i.deadline.truthy && dlExpired now i.deadline) = false := by
    rw [ht]; rfl
  exact ⟨ht, execute_intentions_cons_exec now bs ds i rest hc⟩

/-- C10 witness: deadline `0` at current time `5` — the test is falsy and
the action runs. -/
theorem c10_falsy_deadline_executes_witness :
    Val.truthy (Val.num 0) = false ∧
    (execute_intentions 5 (AgentState.mk [] []
        [Intention.mk (Val.str "c") (Val.obj []) (Val.num 0)])).1 =
      ["EXECUTED: c -> Action 'c' with params \x7b\x7d completed"] := by
  have h := c10_falsy_deadline_executes 5 [] []
    (Intention.mk (Val.str "c") (Val.obj []) (Val.num 0)) [] (Or.inl rfl) (by norm_num)
  exact ⟨h.1, h.2⟩

end BDI
